import Mathlib

/-!
Verification of the bountycatch domain-set utility (src/bountycatch.py).

The development shallowly embeds the parts of the program the claims are
about: the pure domain validator (DomainValidator.is_valid_domain), the
streaming/sorted filter pipeline (DomainManager.iter_domains), the store
operations backed by the PostgreSQL `domains` table (modelled as a list of
rows with PRIMARY KEY uniqueness expressed as Nodup), batched ingestion
(DomainManager.add_domains_from_stream) with an explicit flush-failure
oracle, and the exit-code behaviour of the CLI commands.

Python strings are modelled as Lean String, operating on their character
lists; Python string comparison (used by sorted) is code-point
lexicographic, which agrees with Lean's String linear order.
-/

set_option maxRecDepth 8000

namespace Bountycatch

/-! Python string primitives, character-list based so that everything is
kernel-computable.  domain.startswith(p), domain.endswith(p), p in domain,
line.strip(). -/

/-- Python s.startswith(p). -/
def strStartsWith (s p : String) : Bool := p.data.isPrefixOf s.data

/-- Python s.endswith(p). -/
def strEndsWith (s p : String) : Bool := p.data.isSuffixOf s.data

/-- Helper for Python `p in s`: does some suffix of the haystack start with
the pattern. -/
def containsSub (pat : List Char) : List Char → Bool
  | [] => pat.isEmpty
  | c :: cs => pat.isPrefixOf (c :: cs) || containsSub pat cs

/-- Python `p in s` (substring containment). -/
def strContains (s p : String) : Bool := containsSub p.data s.data

/-- Python considers these characters whitespace for str.strip() (ASCII
fragment; the repository only deals in ASCII domain text). -/
def isPySpace (c : Char) : Bool :=
  c == ' ' || c == '\t' || c == '\n' || c == '\r' || c == '\x0b' || c == '\x0c'

/-- Python line.strip(): drop whitespace from both ends. -/
def pyStrip (s : String) : String :=
  String.mk (((s.data.dropWhile isPySpace).reverse.dropWhile isPySpace).reverse)

/-! DomainValidator (src/bountycatch.py lines 214-245).

DOMAIN_PATTERN is the compiled regex

  ^(?:(?:\*\.)?(?:[a-zA-Z0-9_*](?:[a-zA-Z0-9_*-]\x7b0,61\x7d[a-zA-Z0-9_*])?\.)+
     [a-zA-Z0-9](?:[a-zA-Z0-9-]\x7b0,61\x7d[a-zA-Z0-9])?)$

Since neither the label class nor the TLD class contains '.', every match
decomposes the subject at each '.'; conversely any decomposition into
dot-separated pieces whose initial pieces match the label piece and whose
final piece matches the TLD piece is a match (a leading "*." is itself a
well-formed label piece, so the optional group adds no extra strings).
The embedding therefore splits on '.' and checks each piece.  Python's
re.match with a final $ also accepts a subject carrying one trailing
newline after the matched text, which domainPatternMatch reproduces. -/

/-- Character class [a-zA-Z0-9_*] anchoring a non-final label. -/
def labelStartChar (c : Char) : Bool := c.isAlpha || c.isDigit || c == '_' || c == '*'

/-- Character class [a-zA-Z0-9_*-] allowed inside a non-final label. -/
def labelMidChar (c : Char) : Bool := labelStartChar c || c == '-'

/-- Character class [a-zA-Z0-9] anchoring the final label (TLD). -/
def tldStartChar (c : Char) : Bool := c.isAlpha || c.isDigit

/-- Character class [a-zA-Z0-9-] allowed inside the TLD. -/
def tldMidChar (c : Char) : Bool := tldStartChar c || c == '-'

/-- Piece grammar S(?:M\x7b0,61\x7dS)? : a single anchor character, or an
anchor, up to 61 middle characters, and a final anchor (length 1 to 63). -/
def matchPiece (startC midC : Char → Bool) : List Char → Bool
  | [] => false
  | [c] => startC c
  | c :: cs =>
    startC c && decide (cs.length ≤ 62) && startC (cs.getLastD c) &&
      cs.dropLast.all midC

/-- Split a character list at every '.' (pieces do not contain '.'). -/
def splitOnDot : List Char → List (List Char)
  | [] => [[]]
  | c :: cs =>
    if c == '.' then [] :: splitOnDot cs
    else
      match splitOnDot cs with
      | [] => [[c]]
      | p :: ps => (c :: p) :: ps

/-- Full-match semantics of DOMAIN_PATTERN on a character list: at least one
label piece followed by a TLD piece, dot-separated. -/
def domainRegexCore (cs : List Char) : Bool :=
  let parts := splitOnDot cs
  decide (2 ≤ parts.length) &&
    (parts.dropLast.all (matchPiece labelStartChar labelMidChar)) &&
    matchPiece tldStartChar tldMidChar (parts.getLastD [])

/-- bool(DOMAIN_PATTERN.match(s)): a full match, or a full match of
everything before one trailing newline (Python $ semantics). -/
def domainPatternMatch (s : String) : Bool :=
  domainRegexCore s.data ||
    ((s.data.getLast? == some '\n') && domainRegexCore s.data.dropLast)

/-- DomainValidator.is_valid_domain (lines 230-245): length guard, the three
structural pre-checks, then the regex. -/
def is_valid_domain (domain : String) : Bool :=
  if domain.length == 0 || decide (253 < domain.length) then false
  else if strStartsWith domain "*" && !strStartsWith domain "*." then false
  else if strEndsWith domain "*" || domain == "*" then false
  else if strContains domain ".-" || strContains domain "-." ||
      strStartsWith domain "." || strEndsWith domain "." then false
  else domainPatternMatch domain

/-- Condition grouping the structural pre-checks of is_valid_domain, used to
state claim C4: wildcard not followed by a dot, trailing or lone wildcard,
hyphen adjacent to a dot, or a leading or trailing dot. -/
def violatesStructural (d : String) : Bool :=
  (strStartsWith d "*" && !strStartsWith d "*.") ||
  (strEndsWith d "*" || d == "*") ||
  (strContains d ".-" || strContains d "-." ||
    strStartsWith d "." || strEndsWith d ".")

/-- C1: the validator's concrete verdicts: *.example.com, svc-*.domain.com
and _collab-edge.5g.dell.com are accepted; *abc.com, svc-* and
-.example.com are rejected; the empty string is rejected; and every string
longer than 253 characters (in particular every string of length 254) is
rejected. -/
theorem validator_examples_and_length :
    (∀ d : String, 253 < d.length → is_valid_domain d = false) ∧
    is_valid_domain "" = false ∧
    is_valid_domain "*.example.com" = true ∧
    is_valid_domain "*abc.com" = false ∧
    is_valid_domain "svc-*" = false ∧
    is_valid_domain "svc-*.domain.com" = true ∧
    is_valid_domain "-.example.com" = false ∧
    is_valid_domain "_collab-edge.5g.dell.com" = true := by
  refine ⟨fun d h => ?_, by decide, by decide, by decide, by decide, by decide,
    by decide, by decide⟩
  simp [is_valid_domain, h]

/-- A concrete string of length 254. -/
def str254 : String := String.mk (List.replicate 254 'a')

/-- Witness for C1: the length-254 string satisfies the hypothesis and is
rejected. -/
theorem validator_examples_and_length_witness :
    253 < str254.length ∧ is_valid_domain str254 = false :=
  ⟨by decide, validator_examples_and_length.1 str254 (by decide)⟩

/-- C4: whenever a candidate violates one of the structural rules (leading
'*' not followed by '.', trailing or lone '*', the substrings ".-" or "-.",
or a leading or trailing '.'), is_valid_domain rejects it. -/
theorem validator_structural_reject :
    ∀ d : String, violatesStructural d = true → is_valid_domain d = false := by
  intro d h
  unfold violatesStructural at h
  unfold is_valid_domain
  split
  · rfl
  split
  · rfl
  split
  · rfl
  split
  · rfl
  simp_all

/-- Witness for C4: *abc.com violates the structural rules and is rejected. -/
theorem validator_structural_reject_witness :
    violatesStructural "*abc.com" = true ∧ is_valid_domain "*abc.com" = false :=
  ⟨by decide, validator_structural_reject "*abc.com" (by decide)⟩

/-! DomainManager.iter_domains (lines 334-357).

The backing `domains` table is modelled as a list of rows in scan order;
the PRIMARY KEY makes it duplicate-free (Nodup) in every reachable state,
which is proved below (store_uniqueness_invariant).  A compiled regex is
modelled by its search function, a predicate on strings; a substring filter
is an optional string, where Python truthiness makes both None and the
empty string inactive. -/

/-- Python truthiness of the `match` argument: None and "" are falsy. -/
def matchActive (m : Option String) : Bool :=
  match m with
  | none => false
  | some s => !s.data.isEmpty

/-- Sorted path, first step: if match: domains = those containing it. -/
def applyMatchFilter (m : Option String) (ds : List String) : List String :=
  match m with
  | none => ds
  | some s => if s.data.isEmpty then ds else ds.filter (fun d => strContains d s)

/-- Sorted path, second step: if regex: domains = those whose search hits. -/
def applyRegexFilter (r : Option (String → Bool)) (ds : List String) : List String :=
  match r with
  | none => ds
  | some f => ds.filter (fun d => f d)

/-- Streaming path: a scanned domain survives unless `match and match not in
domain` or `regex and not regex.search(domain)` skips it. -/
def streamKeep (m : Option String) (r : Option (String → Bool)) (d : String) : Bool :=
  !(matchActive m && !strContains d (m.getD "")) &&
  !(r.isSome && !(r.getD (fun _ => false)) d)

/-- Lexicographic less-or-equal on character lists by code point, the order
Python uses to compare strings. -/
def lexLeChars : List Char → List Char → Bool
  | [], _ => true
  | _ :: _, [] => false
  | a :: as, b :: bs => if a < b then true else if a = b then lexLeChars as bs else false

/-- Python string comparison s1 <= s2 (code-point lexicographic). -/
def strLe (a b : String) : Bool := lexLeChars a.data b.data

/-- Python sorted() on strings: stable sort, ascending under strLe. -/
def sortStrings (l : List String) : List String :=
  l.insertionSort (fun a b => strLe a b = true)

/-- The comparison is total. -/
theorem lexLeChars_total : ∀ as bs : List Char,
    lexLeChars as bs = true ∨ lexLeChars bs as = true := by
  intro as
  induction as with
  | nil => intro bs; left; rfl
  | cons a as ih =>
    intro bs
    cases bs with
    | nil => right; rfl
    | cons b bs =>
      rcases lt_trichotomy a b with h | h | h
      · left; simp [lexLeChars, h]
      · subst h
        rcases ih bs with h' | h'
        · left; simp [lexLeChars, lt_self_iff_false, h']
        · right; simp [lexLeChars, lt_self_iff_false, h']
      · right; simp [lexLeChars, h]

/-- The comparison is transitive. -/
theorem lexLeChars_trans : ∀ as bs cs : List Char,
    lexLeChars as bs = true → lexLeChars bs cs = true →
    lexLeChars as cs = true := by
  intro as
  induction as with
  | nil => intro bs cs _ _; rfl
  | cons a as ih =>
    intro bs cs h1 h2
    cases bs with
    | nil => simp [lexLeChars] at h1
    | cons b bs =>
      cases cs with
      | nil => simp [lexLeChars] at h2
      | cons c cs =>
        by_cases hab : a < b
        · by_cases hbc : b < c
          · simp [lexLeChars, lt_trans hab hbc]
          · by_cases hbc2 : b = c
            · subst hbc2; simp [lexLeChars, hab]
            · simp [lexLeChars, hbc, hbc2] at h2
        · by_cases hab2 : a = b
          · subst hab2
            simp only [lexLeChars, lt_self_iff_false, if_false, if_pos rfl] at h1
            by_cases hbc : a < c
            · simp [lexLeChars, hbc]
            · by_cases hbc2 : a = c
              · subst hbc2
                simp only [lexLeChars, lt_self_iff_false, if_false, if_pos rfl] at h2 ⊢
                exact ih bs cs h1 h2
              · simp [lexLeChars, hbc, hbc2] at h2
          · simp [lexLeChars, hab, hab2] at h1

/-- DomainManager.iter_domains: sort=true materializes, filters, sorts;
sort=false streams the scan through the two skip conditions. -/
def iterDomains (store : List String) (m : Option String)
    (r : Option (String → Bool)) (sort : Bool) : List String :=
  if sort then sortStrings (applyRegexFilter r (applyMatchFilter m store))
  else store.filter (streamKeep m r)

/-- The empty pattern is a substring of every string. -/
theorem containsSub_nil (l : List Char) : containsSub [] l = true := by
  cases l <;> simp [containsSub, List.isPrefixOf]

/-- An empty substring filter is satisfied by every candidate. -/
theorem strContains_of_isEmpty (d s : String) (hs : s.data.isEmpty = true) :
    strContains d s = true := by
  have h : s.data = [] := by simpa using hs
  simp [strContains, h, containsSub_nil]

/-- Membership after the sorted path's substring filtering step. -/
theorem mem_applyMatchFilter (m : Option String) (ds : List String) (d : String) :
    d ∈ applyMatchFilter m ds ↔
      d ∈ ds ∧ ∀ s, m = some s → strContains d s = true := by
  cases m with
  | none => simp [applyMatchFilter]
  | some s =>
    by_cases hs : s.data.isEmpty = true
    · simp only [applyMatchFilter, if_pos hs]
      constructor
      · intro hd
        exact ⟨hd, fun s' h => by cases h; exact strContains_of_isEmpty d s hs⟩
      · intro h
        exact h.1
    · simp only [applyMatchFilter, if_neg hs, List.mem_filter]
      constructor
      · rintro ⟨hd, hc⟩
        exact ⟨hd, fun s' h => by cases h; exact hc⟩
      · rintro ⟨hd, hc⟩
        exact ⟨hd, hc s rfl⟩

/-- Membership after the sorted path's regex filtering step. -/
theorem mem_applyRegexFilter (r : Option (String → Bool)) (ds : List String)
    (d : String) :
    d ∈ applyRegexFilter r ds ↔ d ∈ ds ∧ ∀ f, r = some f → f d = true := by
  cases r with
  | none => simp [applyRegexFilter]
  | some f =>
    simp only [applyRegexFilter, List.mem_filter]
    constructor
    · rintro ⟨hd, hc⟩
      exact ⟨hd, fun f' h => by cases h; exact hc⟩
    · rintro ⟨hd, hc⟩
      exact ⟨hd, hc f rfl⟩

/-- The streaming path's survival condition, characterized. -/
theorem streamKeep_iff (m : Option String) (r : Option (String → Bool))
    (d : String) :
    streamKeep m r d = true ↔
      (∀ s, m = some s → strContains d s = true) ∧
        (∀ f, r = some f → f d = true) := by
  have hm : (!(matchActive m && !strContains d (m.getD ""))) = true ↔
      ∀ s, m = some s → strContains d s = true := by
    cases m with
    | none => simp [matchActive]
    | some s =>
      simp only [matchActive, Option.getD]
      constructor
      · intro h s' h'
        cases h'
        rcases (by simpa using h : s.data.isEmpty = true ∨ strContains d s = true)
          with h₁ | h₁
        · exact strContains_of_isEmpty d s h₁
        · exact h₁
      · intro h
        simp [h s rfl]
  have hr : (!(r.isSome && !(r.getD (fun _ => false)) d)) = true ↔
      ∀ f, r = some f → f d = true := by
    cases r with
    | none => simp
    | some f =>
      simp only [Option.isSome, Option.getD]
      constructor
      · intro h f' h'
        cases h'
        simpa using h
      · intro h
        simp [h f rfl]
  rw [streamKeep, Bool.and_eq_true, hm, hr]

/-- C2: a domain is yielded by iter_domains exactly when it is stored and
passes the substring filter (when one is set) and the regex filter (when
one is set); with no filter every stored domain is yielded.  Holds on both
the sort=false and sort=true paths. -/
theorem iter_domains_yields_iff (store : List String) (m : Option String)
    (r : Option (String → Bool)) (sort : Bool) (d : String) :
    d ∈ iterDomains store m r sort ↔
      d ∈ store ∧ (∀ s, m = some s → strContains d s = true) ∧
        (∀ f, r = some f → f d = true) := by
  cases sort with
  | false =>
    have h : iterDomains store m r false = store.filter (streamKeep m r) := rfl
    rw [h, List.mem_filter, streamKeep_iff]
  | true =>
    have h : iterDomains store m r true =
        sortStrings (applyRegexFilter r (applyMatchFilter m store)) := rfl
    rw [h]
    unfold sortStrings
    rw [List.mem_insertionSort, mem_applyRegexFilter, mem_applyMatchFilter]
    tauto

/-- C3: with no filter, the sort=true output is lexicographically
non-decreasing and is a permutation (same multiset) of the sort=false
output; on a duplicate-free store both outputs list each element once. -/
theorem iter_domains_sort_agrees (store : List String) :
    (iterDomains store none none true).Sorted (fun a b => strLe a b = true) ∧
    (iterDomains store none none true).Perm (iterDomains store none none false) ∧
    (store.Nodup →
      (iterDomains store none none true).Nodup ∧
      (iterDomains store none none false).Nodup) := by
  have htrue : iterDomains store none none true = sortStrings store := rfl
  have hfalse : iterDomains store none none false = store := by
    simp [iterDomains, streamKeep, matchActive]
  refine ⟨?_, ?_, fun h => ⟨?_, ?_⟩⟩
  · rw [htrue]
    haveI hT : IsTotal String (fun a b => strLe a b = true) :=
      ⟨fun a b => lexLeChars_total a.data b.data⟩
    haveI hR : IsTrans String (fun a b => strLe a b = true) :=
      ⟨fun a b c => lexLeChars_trans a.data b.data c.data⟩
    exact List.sorted_insertionSort _ store
  · rw [htrue, hfalse]
    exact List.perm_insertionSort _ store
  · rw [htrue]
    exact ((List.perm_insertionSort _ store).nodup_iff).mpr h
  · rw [hfalse]
    exact h

/-- Witness for C3: a concrete duplicate-free store. -/
theorem iter_domains_sort_agrees_witness :
    (["b.com", "a.com"] : List String).Nodup ∧
    (iterDomains ["b.com", "a.com"] none none true).Nodup :=
  ⟨by decide, ((iter_domains_sort_agrees ["b.com", "a.com"]).2.2 (by decide)).1⟩

/-! Export (main, lines 683-692, and DomainManager.export_domains,
lines 368-376): shape of the JSON payload. -/

/-- JSON payload written by the export command (timestamp omitted: it does
not interact with any claim). -/
structure ExportData where
  domain_count : Nat
  domains : List String

/-- JSON branch of the export command in main: list the filtered iteration,
set domain_count to its length, and re-sort when --sort was given. -/
def exportJsonMain (store : List String) (m : Option String)
    (r : Option (String → Bool)) (sort : Bool) : ExportData :=
  let ds := iterDomains store m r sort
  ⟨ds.length, if sort then sortStrings ds else ds⟩

/-- DomainManager.export_domains with format json: the full set, counted
and sorted. -/
def exportDomainsJson (store : List String) : ExportData :=
  ⟨store.length, sortStrings store⟩

/-- C10: in every JSON export (either export code path, any store contents,
any filter, sorted or not) domain_count equals the length of the domains
array. -/
theorem export_count_matches :
    (∀ (store : List String) (m : Option String) (r : Option (String → Bool))
      (sort : Bool),
      (exportJsonMain store m r sort).domain_count =
        (exportJsonMain store m r sort).domains.length) ∧
    (∀ store : List String,
      (exportDomainsJson store).domain_count =
        (exportDomainsJson store).domains.length) := by
  constructor
  · intro store m r sort
    cases sort <;> simp [exportJsonMain, sortStrings, List.length_insertionSort]
  · intro store
    simp [exportDomainsJson, sortStrings, List.length_insertionSort]

/-! DataStore row operations (lines 55-131, 165-180).  The `domains` table
is a list of rows in scan order; `INSERT ... ON CONFLICT DO NOTHING`
appends a row unless an equal row is already present. -/

/-- DataStore.add_domain: insert one row unless present; rowcount 1 or 0. -/
def addDomain (rows : List String) (d : String) : List String × Nat :=
  if d ∈ rows then (rows, 0) else (rows ++ [d], 1)

/-- psycopg2.extras.execute_values splits its argument list into
consecutive pages of at most page_size rows and runs one statement per
page.  paginate p l cur chunks l that way, cur being the page being
accumulated. -/
def paginate (pageSize : Nat) : List String → List String → List (List String)
  | [], cur => if cur.isEmpty then [] else [cur]
  | x :: xs, cur =>
    if pageSize ≤ cur.length + 1 then (cur ++ [x]) :: paginate pageSize xs []
    else paginate pageSize xs (cur ++ [x])

/-- Effect of one INSERT ... VALUES ... ON CONFLICT DO NOTHING statement
over one page of rows, in order: a row already present, or repeated
earlier in the same statement, is skipped; the statement's rowcount counts
the rows it inserted. -/
def insertRows : List String → List String → List String × Nat
  | [], rows => (rows, 0)
  | d :: ds, rows =>
    if d ∈ rows then insertRows ds rows
    else
      ((insertRows ds (rows ++ [d])).1, (insertRows ds (rows ++ [d])).2 + 1)

/-- DataStore.add_domains_batch: returns 0 on an empty list, otherwise runs
execute_values with page_size=10000, i.e. one INSERT per page of 10000
rows, and returns cur.rowcount, which after several executes is the LAST
page's insert count only. -/
def addDomainsBatch (ds rows : List String) : List String × Nat :=
  if ds.isEmpty then (rows, 0)
  else (paginate 10000 ds []).foldl (fun acc page => insertRows page acc.1) (rows, 0)

/-- DataStore.remove_domain: DELETE WHERE domain = d; rowcount. -/
def removeDomain (rows : List String) (d : String) : List String × Nat :=
  ((rows.filter (fun x => !(x == d))),
    rows.length - (rows.filter (fun x => !(x == d))).length)

/-- Effect of one DELETE WHERE domain IN (VALUES ...) statement over one
page of rows; its rowcount counts the rows it deleted. -/
def deletePage (rows page : List String) : List String × Nat :=
  ((rows.filter (fun x => !(page.contains x))),
    rows.length - (rows.filter (fun x => !(page.contains x))).length)

/-- DataStore.remove_domains_batch: returns 0 on an empty list, otherwise
runs execute_values with page_size=10000, one DELETE per page of 10000
rows, and returns cur.rowcount, the LAST page's delete count only. -/
def removeDomainsBatch (rows ds : List String) : List String × Nat :=
  if ds.isEmpty then (rows, 0)
  else (paginate 10000 ds []).foldl (fun acc page => deletePage acc.1 page) (rows, 0)

/-- DataStore.delete_all_domains: TRUNCATE; returns 1 if the table had
data. -/
def deleteAllDomains (rows : List String) : List String × Nat :=
  ([], if rows.isEmpty then 0 else 1)

/-- A list extended by one element is not empty. -/
theorem isEmpty_append_singleton (l : List String) (x : String) :
    (l ++ [x]).isEmpty = false := by
  cases l <;> rfl

/-- One INSERT statement grows the store by exactly its rowcount. -/
theorem insertRows_length (ds : List String) :
    ∀ rows : List String,
      (insertRows ds rows).1.length = rows.length + (insertRows ds rows).2 := by
  induction ds with
  | nil => intro rows; simp [insertRows]
  | cons d ds ih =>
    intro rows
    by_cases hmem : d ∈ rows
    · simp [insertRows, hmem, ih rows]
    · simp [insertRows, hmem, ih (rows ++ [d])]
      omega

/-- After one INSERT statement a row is present iff it was present or
supplied. -/
theorem insertRows_mem (ds : List String) :
    ∀ (rows : List String) (d : String),
      d ∈ (insertRows ds rows).1 ↔ d ∈ rows ∨ d ∈ ds := by
  induction ds with
  | nil => intro rows d; simp [insertRows]
  | cons e ds ih =>
    intro rows d
    by_cases hmem : e ∈ rows
    · rw [show insertRows (e :: ds) rows = insertRows ds rows from by
        simp [insertRows, hmem]]
      rw [ih rows d]
      simp only [List.mem_cons]
      constructor
      · rintro (h | h)
        · exact Or.inl h
        · exact Or.inr (Or.inr h)
      · rintro (h | h | h)
        · exact Or.inl h
        · exact Or.inl (h ▸ hmem)
        · exact Or.inr h
    · rw [show (insertRows (e :: ds) rows).1 = (insertRows ds (rows ++ [e])).1
        from by simp [insertRows, hmem]]
      rw [ih (rows ++ [e]) d]
      simp [List.mem_append, or_assoc, or_comm, or_left_comm]

/-- On a duplicate-free page the statement's rowcount is exactly the number
of supplied domains that were not already stored. -/
theorem insertRows_count (ds : List String) :
    ∀ rows : List String, ds.Nodup →
      (insertRows ds rows).2 =
        (ds.filter (fun d => !decide (d ∈ rows))).length := by
  induction ds with
  | nil => intro rows _; simp [insertRows]
  | cons d ds ih =>
    intro rows h
    rcases List.nodup_cons.mp h with ⟨hd, hds⟩
    by_cases hmem : d ∈ rows
    · simp [insertRows, hmem, List.filter_cons, ih rows hds]
    · have hfeq : ds.filter (fun e => !decide (e ∈ rows) && !decide (e = d)) =
          ds.filter (fun e => !decide (e ∈ rows)) := by
        apply List.filter_congr
        intro e he
        have hne : e ≠ d := fun h' => hd (h' ▸ he)
        simp [hne]
      simp [insertRows, hmem, List.filter_cons, ih (rows ++ [d]) hds, hfeq]

/-- A statement over fresh, duplicate-free rows appends them all and counts
them all. -/
theorem insertRows_fresh : ∀ (ds rows : List String), ds.Nodup →
    (∀ d ∈ ds, d ∉ rows) → insertRows ds rows = (rows ++ ds, ds.length) := by
  intro ds
  induction ds with
  | nil => intro rows _ _; simp [insertRows]
  | cons d ds ih =>
    intro rows hnd hfresh
    rcases List.nodup_cons.mp hnd with ⟨hd, hds⟩
    have hmem : d ∉ rows := hfresh d (List.mem_cons_self d ds)
    have hfresh' : ∀ e ∈ ds, e ∉ rows ++ [d] := by
      intro e he hmem'
      rcases List.mem_append.mp hmem' with h' | h'
      · exact hfresh e (List.mem_cons_of_mem d he) h'
      · rw [List.mem_singleton] at h'
        exact hd (h' ▸ he)
    simp only [insertRows, if_neg hmem]
    rw [ih (rows ++ [d]) hds hfresh']
    simp

/-- A batch that fits one page, accumulated onto a part-filled current
page, forms a single page. -/
theorem paginate_small (p : Nat) :
    ∀ (l cur : List String), l ≠ [] → cur.length + l.length ≤ p →
      paginate p l cur = [cur ++ l] := by
  intro l
  induction l with
  | nil => intro cur h _; exact absurd rfl h
  | cons x xs ih =>
    intro cur _ hlen
    by_cases hxs : xs = []
    · subst hxs
      by_cases hc : p ≤ cur.length + 1
      · simp [paginate, hc, isEmpty_append_singleton]
      · simp [paginate, hc, isEmpty_append_singleton]
    · have hc : ¬ p ≤ cur.length + 1 := by
        have hxlen : 1 ≤ xs.length := by
          cases xs with
          | nil => exact absurd rfl hxs
          | cons _ _ => simp
        simp only [List.length_cons] at hlen
        omega
      simp only [paginate, if_neg hc]
      rw [ih (cur ++ [x]) hxs
        (by simp only [List.length_append, List.length_cons, List.length_nil] at hlen ⊢; omega)]
      simp

/-- A batch overflowing the current page closes that page at p rows and
paginates the rest. -/
theorem paginate_full (p : Nat) :
    ∀ (l cur : List String), cur.length < p → p ≤ cur.length + l.length →
      paginate p l cur =
        (cur ++ l.take (p - cur.length)) :: paginate p (l.drop (p - cur.length)) [] := by
  intro l
  induction l with
  | nil =>
    intro cur h1 h2
    have h0 : ([] : List String).length = 0 := rfl
    exact absurd h1 (by omega)
  | cons x xs ih =>
    intro cur h1 h2
    by_cases hc : p ≤ cur.length + 1
    · have hp1 : p - cur.length = 1 := by omega
      simp only [paginate, if_pos hc, hp1]
      simp
    · have h1' : (cur ++ [x]).length < p := by
        simp only [List.length_append, List.length_cons, List.length_nil]
        omega
      have h2' : p ≤ (cur ++ [x]).length + xs.length := by
        simp only [List.length_append, List.length_cons, List.length_nil]
        simp only [List.length_cons] at h2
        omega
      simp only [paginate, if_neg hc]
      rw [ih (cur ++ [x]) h1' h2']
      have hk : p - cur.length = (p - (cur ++ [x]).length) + 1 := by
        simp only [List.length_append, List.length_cons, List.length_nil]
        omega
      rw [hk]
      simp [List.take_succ_cons, List.drop_succ_cons, List.append_assoc]

/-- A domain occurs in some page iff it occurs in the current page or the
remaining input. -/
theorem mem_paginate (p : Nat) :
    ∀ (l cur : List String) (d : String),
      (∃ pg ∈ paginate p l cur, d ∈ pg) ↔ d ∈ cur ∨ d ∈ l := by
  intro l
  induction l with
  | nil =>
    intro cur d
    by_cases hc : cur.isEmpty = true
    · have hn : cur = [] := by simpa using hc
      simp [paginate, hc, hn]
    · simp [paginate, hc]
  | cons x xs ih =>
    intro cur d
    by_cases hc : p ≤ cur.length + 1
    · simp only [paginate, if_pos hc]
      constructor
      · rintro ⟨pg, hpg, hd⟩
        rcases List.mem_cons.mp hpg with h' | h'
        · subst h'
          rcases List.mem_append.mp hd with h'' | h''
          · exact Or.inl h''
          · rw [List.mem_singleton] at h''
            exact Or.inr (h'' ▸ List.mem_cons_self x xs)
        · rcases (ih [] d).mp ⟨pg, h', hd⟩ with h'' | h''
          · exact absurd h'' (List.not_mem_nil d)
          · exact Or.inr (List.mem_cons_of_mem x h'')
      · intro hor
        rcases hor with h' | h'
        · exact ⟨cur ++ [x], List.mem_cons_self _ _, List.mem_append.mpr (Or.inl h')⟩
        · rcases List.mem_cons.mp h' with h'' | h''
          · refine ⟨cur ++ [x], List.mem_cons_self _ _, List.mem_append.mpr (Or.inr ?_)⟩
            rw [List.mem_singleton]
            exact h''
          · rcases (ih [] d).mpr (Or.inr h'') with ⟨pg, hpg, hd⟩
            exact ⟨pg, List.mem_cons_of_mem _ hpg, hd⟩
    · simp only [paginate, if_neg hc]
      rw [ih (cur ++ [x]) d]
      simp [List.mem_append, or_assoc]

/-- Folding the per-page INSERTs accumulates membership over all pages. -/
theorem foldl_insertRows_mem :
    ∀ (pages : List (List String)) (acc : List String × Nat) (d : String),
      d ∈ (pages.foldl (fun acc page => insertRows page acc.1) acc).1 ↔
        d ∈ acc.1 ∨ ∃ pg ∈ pages, d ∈ pg := by
  intro pages
  induction pages with
  | nil => intro acc d; simp
  | cons pg pages ih =>
    intro acc d
    simp only [List.foldl_cons, ih, insertRows_mem]
    constructor
    · rintro ((h | h) | ⟨pg', hpg', hd⟩)
      · exact Or.inl h
      · exact Or.inr ⟨pg, List.mem_cons_self _ _, h⟩
      · exact Or.inr ⟨pg', List.mem_cons_of_mem _ hpg', hd⟩
    · rintro (h | ⟨pg', hpg', hd⟩)
      · exact Or.inl (Or.inl h)
      · rcases List.mem_cons.mp hpg' with h' | h'
        · subst h'
          exact Or.inl (Or.inr hd)
        · exact Or.inr ⟨pg', h', hd⟩

/-- After add_domains_batch a row is present iff it was present or supplied,
however the batch was paginated. -/
theorem addDomainsBatch_mem (ds rows : List String) (d : String) :
    d ∈ (addDomainsBatch ds rows).1 ↔ d ∈ rows ∨ d ∈ ds := by
  unfold addDomainsBatch
  by_cases he : ds.isEmpty = true
  · have hn : ds = [] := by simpa using he
    rw [if_pos he]
    simp [hn]
  · rw [if_neg he]
    rw [foldl_insertRows_mem, mem_paginate]
    simp

/-- A batch of at most 10000 rows forms a single page, so add_domains_batch
is one INSERT statement. -/
theorem addDomainsBatch_single_page (ds rows : List String)
    (h : ds.length ≤ 10000) : addDomainsBatch ds rows = insertRows ds rows := by
  unfold addDomainsBatch
  by_cases he : ds.isEmpty = true
  · have hn : ds = [] := by simpa using he
    subst hn
    simp [insertRows]
  · rw [if_neg he]
    have hne : ds ≠ [] := by simpa using he
    rw [paginate_small 10000 ds [] hne (by simpa using h)]
    simp only [List.nil_append, List.foldl_cons, List.foldl_nil]

/-- C8 as amended: add_domains_batch never rejects a batch because rows
pre-exist (it is a total function of store and batch, and afterwards
exactly the old and the supplied rows are present); and when the batch
fits one execute_values page (at most 10000 rows), the returned rowcount
is exactly the growth of the store, which for a duplicate-free batch is
the number of supplied domains that were not already stored.  Larger
batches return only the last page's insert count. -/
theorem add_batch_spec (ds rows : List String) :
    (∀ d, d ∈ (addDomainsBatch ds rows).1 ↔ d ∈ rows ∨ d ∈ ds) ∧
    (ds.length ≤ 10000 →
      ((addDomainsBatch ds rows).1.length = rows.length + (addDomainsBatch ds rows).2) ∧
      (ds.Nodup → (addDomainsBatch ds rows).2 =
        (ds.filter (fun d => !decide (d ∈ rows))).length)) := by
  refine ⟨fun d => addDomainsBatch_mem ds rows d, fun h => ?_⟩
  rw [addDomainsBatch_single_page ds rows h]
  exact ⟨insertRows_length ds rows, fun hnd => insertRows_count ds rows hnd⟩

/-- Witness for C8 as amended: a two-row batch (one page) with one
pre-existing row returns exactly the one new insert. -/
theorem add_batch_spec_witness :
    (["a.com", "b.com"] : List String).length ≤ 10000 ∧
    (["a.com", "b.com"] : List String).Nodup ∧
    (addDomainsBatch ["a.com", "b.com"] ["a.com"]).2 =
      ((["a.com", "b.com"] : List String).filter
        (fun d => !decide (d ∈ (["a.com"] : List String)))).length :=
  ⟨by decide, by decide,
    ((add_batch_spec ["a.com", "b.com"] ["a.com"]).2 (by decide)).2 (by decide)⟩

/-- A family of pairwise distinct domains: i maps to a run of i+1 letters a
followed by .com. -/
def freshDomain (i : Nat) : String :=
  String.mk (List.replicate (i + 1) 'a' ++ ['.', 'c', 'o', 'm'])

/-- A batch of 10001 distinct domains, one more than one execute_values
page (irreducible so no tactic tries to materialize the 10001 rows). -/
@[irreducible] def bigBatch : List String := (List.range 10001).map freshDomain

/-- Distinct indices give distinct domains (their lengths differ). -/
theorem freshDomain_inj : Function.Injective freshDomain := by
  intro i j h
  have hd : List.replicate (i + 1) 'a' ++ ['.', 'c', 'o', 'm'] =
      List.replicate (j + 1) 'a' ++ ['.', 'c', 'o', 'm'] := congrArg String.data h
  have hl := congrArg List.length hd
  simp only [List.length_append, List.length_replicate] at hl
  omega

/-- The big batch is duplicate-free and has 10001 rows. -/
theorem bigBatch_nodup_length : bigBatch.Nodup ∧ bigBatch.length = 10001 := by
  constructor
  · unfold bigBatch
    exact List.Nodup.map freshDomain_inj (List.nodup_range 10001)
  · unfold bigBatch
    simp

/-- Counterexample to C8: inserting 10001 distinct domains into an empty
store newly inserts all 10001 of them (the store grows from 0 to 10001
rows), yet the call returns 1 — the rowcount of the second page's INSERT,
which carried a single row — so the return value is not the number of
domains newly inserted by the call. -/
theorem add_batch_rowcount_last_page :
    (addDomainsBatch bigBatch []).2 = 1 ∧
    (addDomainsBatch bigBatch []).1.length = 10001 ∧
    bigBatch.length = 10001 ∧ bigBatch.Nodup ∧
    (addDomainsBatch bigBatch []).2 ≠ (addDomainsBatch bigBatch []).1.length := by
  have hnd := bigBatch_nodup_length.1
  have hlen := bigBatch_nodup_length.2
  have hd1 : (bigBatch.drop 10000).length = 1 := by simp [hlen]
  have hpag : paginate 10000 bigBatch [] =
      [bigBatch.take 10000, bigBatch.drop 10000] := by
    rw [paginate_full 10000 bigBatch [] (by simp) (by simp [hlen])]
    simp only [List.length_nil, Nat.sub_zero, List.nil_append]
    have hdne : bigBatch.drop 10000 ≠ [] := by
      intro hnil
      rw [hnil] at hd1
      simp at hd1
    rw [paginate_small 10000 (bigBatch.drop 10000) [] hdne (by simp [hd1])]
    simp
  have htake_nd : (bigBatch.take 10000).Nodup :=
    List.Nodup.sublist (List.take_sublist 10000 bigBatch) hnd
  have hdrop_nd : (bigBatch.drop 10000).Nodup :=
    List.Nodup.sublist (List.drop_sublist 10000 bigBatch) hnd
  have h1 : insertRows (bigBatch.take 10000) [] = (bigBatch.take 10000, 10000) := by
    rw [insertRows_fresh _ _ htake_nd (fun d _ => List.not_mem_nil d)]
    simp [List.length_take, hlen]
  have hdisj : ∀ d ∈ bigBatch.drop 10000, d ∉ bigBatch.take 10000 := by
    have hnd2 := hnd
    rw [← List.take_append_drop 10000 bigBatch] at hnd2
    rcases List.nodup_append.mp hnd2 with ⟨_, _, hdis⟩
    intro d hd hT
    exact hdis hT hd
  have h2 : insertRows (bigBatch.drop 10000) (bigBatch.take 10000) =
      (bigBatch.take 10000 ++ bigBatch.drop 10000, 1) := by
    rw [insertRows_fresh _ _ hdrop_nd hdisj]
    simp [hd1]
  have hne : ¬ (bigBatch.isEmpty = true) := by
    intro h
    have hb : bigBatch = [] := by simpa using h
    rw [hb] at hlen
    simp at hlen
  have hcalc : addDomainsBatch bigBatch [] =
      (bigBatch.take 10000 ++ bigBatch.drop 10000, 1) := by
    unfold addDomainsBatch
    rw [if_neg hne, hpag]
    rw [List.foldl_cons]
    rw [List.foldl_cons]
    rw [List.foldl_nil]
    show insertRows (bigBatch.drop 10000) (insertRows (bigBatch.take 10000) []).1 = _
    rw [h1]
    show insertRows (bigBatch.drop 10000) (bigBatch.take 10000) = _
    exact h2
  have hgrow : (addDomainsBatch bigBatch []).1.length = 10001 := by
    rw [hcalc]
    simp [List.take_append_drop, hlen]
  refine ⟨by rw [hcalc], hgrow, hlen, hnd, ?_⟩
  rw [hcalc] at hgrow ⊢
  simp only [hgrow]
  omega

/-! DomainManager.add_domains_from_stream (lines 402-451): per line strip,
skip blanks, strip again (_process_domain), validate, accumulate into a
batch, flush once the batch reaches batch_size, flush the remainder, then
compute the summary.  A flush runs add_domains_batch inside try/except
psycopg2.Error: on failure the transaction was rolled back (the batch's
rows are not stored, its rowcount is not accumulated) and the loop
continues.  Which flushes fail is an oracle indexed by flush number. -/

/-- One flush as observed: the batch it carried, whether the store raised,
and the rowcount accumulated into new_domains. -/
structure FlushEvent where
  batch : List String
  failed : Bool
  inserted : Nat
deriving DecidableEq

/-- Final log line of add_domains_from_stream: processed total, newly
inserted, duplicates (total - new), and the invalid count. -/
structure IngestSummary where
  total : Nat
  newDomains : Nat
  duplicates : Nat
  invalid : Nat
deriving DecidableEq

/-- Outcome of one add_domains_from_stream call. -/
structure IngestResult where
  store : List String
  summary : IngestSummary
  flushes : List FlushEvent
deriving DecidableEq

/-- Loop state of add_domains_from_stream. -/
structure IngestState where
  store : List String
  batch : List String
  total : Nat
  newCount : Nat
  invalid : Nat
  flushIdx : Nat
  events : List FlushEvent
deriving DecidableEq

/-- One flush: on failure the store is unchanged (rollback) and nothing is
counted; on success add_domains_batch runs and its rowcount is recorded. -/
def flushBatch (store batch : List String) (fails : Nat → Bool) (idx : Nat) :
    List String × FlushEvent :=
  if fails idx then (store, ⟨batch, true, 0⟩)
  else ((addDomainsBatch batch store).1, ⟨batch, false, (addDomainsBatch batch store).2⟩)

/-- One loop iteration of add_domains_from_stream: domain = line.strip();
blank lines are skipped; processed = _process_domain(domain) strips again;
an invalid processed domain is counted and skipped; otherwise it is
appended to the batch and total is bumped, and when the batch has reached
batch_size it is flushed. -/
def ingestStep (validate : Bool) (bsize : Nat) (fails : Nat → Bool)
    (st : IngestState) (line : String) : IngestState :=
  if (pyStrip line).data.isEmpty then st
  else if validate && !is_valid_domain (pyStrip (pyStrip line)) then
    { st with invalid := st.invalid + 1 }
  else if bsize ≤ (st.batch ++ [pyStrip (pyStrip line)]).length then
    { store := (flushBatch st.store (st.batch ++ [pyStrip (pyStrip line)]) fails st.flushIdx).1,
      batch := [],
      total := st.total + 1,
      newCount := st.newCount +
        (flushBatch st.store (st.batch ++ [pyStrip (pyStrip line)]) fails st.flushIdx).2.inserted,
      invalid := st.invalid,
      flushIdx := st.flushIdx + 1,
      events := st.events ++
        [(flushBatch st.store (st.batch ++ [pyStrip (pyStrip line)]) fails st.flushIdx).2] }
  else
    { st with batch := st.batch ++ [pyStrip (pyStrip line)], total := st.total + 1 }

/-- After the stream is exhausted: flush the remaining partial batch, then
report the summary. -/
def ingestFinish (fails : Nat → Bool) (st : IngestState) : IngestResult :=
  if st.batch.isEmpty then
    ⟨st.store, ⟨st.total, st.newCount, st.total - st.newCount, st.invalid⟩, st.events⟩
  else
    ⟨(flushBatch st.store st.batch fails st.flushIdx).1,
      ⟨st.total,
        st.newCount + (flushBatch st.store st.batch fails st.flushIdx).2.inserted,
        st.total - (st.newCount + (flushBatch st.store st.batch fails st.flushIdx).2.inserted),
        st.invalid⟩,
      st.events ++ [(flushBatch st.store st.batch fails st.flushIdx).2]⟩

/-- Loop state on entry to add_domains_from_stream. -/
def initialIngestState (store : List String) : IngestState :=
  ⟨store, [], 0, 0, 0, 0, []⟩

/-- DomainManager.add_domains_from_stream. -/
def addDomainsFromStream (lines : List String) (validate : Bool) (bsize : Nat)
    (fails : Nat → Bool) (store : List String) : IngestResult :=
  ingestFinish fails (lines.foldl (ingestStep validate bsize fails) (initialIngestState store))

/-! Uniqueness invariant (C5): every store operation preserves freedom from
duplicate rows, which the PRIMARY KEY guarantees in the real table. -/

/-- Appending a genuinely new row preserves freedom from duplicates. -/
theorem nodup_append_single (rows : List String) (d : String)
    (h : rows.Nodup) (hd : d ∉ rows) : (rows ++ [d]).Nodup := by
  refine List.Nodup.append h (List.nodup_singleton d) ?_
  intro a ha hb
  rw [List.mem_singleton] at hb
  exact hd (hb ▸ ha)

/-- One INSERT statement preserves freedom from duplicates. -/
theorem insertRows_nodup (ds : List String) :
    ∀ rows : List String, rows.Nodup → (insertRows ds rows).1.Nodup := by
  induction ds with
  | nil => intro rows h; exact h
  | cons d ds ih =>
    intro rows h
    by_cases hmem : d ∈ rows
    · simpa [insertRows, hmem] using ih rows h
    · simpa [insertRows, hmem] using
        ih (rows ++ [d]) (nodup_append_single rows d h hmem)

/-- add_domains_batch preserves freedom from duplicates, page by page. -/
theorem addDomainsBatch_nodup (ds rows : List String) (h : rows.Nodup) :
    (addDomainsBatch ds rows).1.Nodup := by
  unfold addDomainsBatch
  by_cases he : ds.isEmpty = true
  · rw [if_pos he]
    exact h
  · rw [if_neg he]
    have hfold : ∀ (pages : List (List String)) (acc : List String × Nat),
        acc.1.Nodup →
        (pages.foldl (fun acc page => insertRows page acc.1) acc).1.Nodup := by
      intro pages
      induction pages with
      | nil => intro acc hacc; exact hacc
      | cons pg pages ih =>
        intro acc hacc
        exact ih _ (insertRows_nodup pg acc.1 hacc)
    exact hfold _ (rows, 0) h

/-- remove_domains_batch preserves freedom from duplicates, page by page. -/
theorem removeDomainsBatch_nodup (rows ds : List String) (h : rows.Nodup) :
    (removeDomainsBatch rows ds).1.Nodup := by
  unfold removeDomainsBatch
  by_cases he : ds.isEmpty = true
  · rw [if_pos he]
    exact h
  · rw [if_neg he]
    have hfold : ∀ (pages : List (List String)) (acc : List String × Nat),
        acc.1.Nodup →
        (pages.foldl (fun acc page => deletePage acc.1 page) acc).1.Nodup := by
      intro pages
      induction pages with
      | nil => intro acc hacc; exact hacc
      | cons pg pages ih =>
        intro acc hacc
        exact ih _ (hacc.filter _)
    exact hfold _ (rows, 0) h

/-- Each loop iteration of ingestion preserves freedom from duplicates. -/
theorem ingestStep_nodup (validate : Bool) (bsize : Nat) (fails : Nat → Bool)
    (st : IngestState) (line : String) (h : st.store.Nodup) :
    (ingestStep validate bsize fails st line).store.Nodup := by
  unfold ingestStep
  split
  · exact h
  split
  · exact h
  split
  · unfold flushBatch
    split
    · exact h
    · exact addDomainsBatch_nodup _ _ h
  · exact h

/-- The whole ingestion loop preserves freedom from duplicates. -/
theorem ingest_foldl_nodup (validate : Bool) (bsize : Nat) (fails : Nat → Bool)
    (lines : List String) :
    ∀ st : IngestState, st.store.Nodup →
      (lines.foldl (ingestStep validate bsize fails) st).store.Nodup := by
  induction lines with
  | nil => intro st h; exact h
  | cons line lines ih =>
    intro st h
    exact ih _ (ingestStep_nodup validate bsize fails st line h)

/-- add_domains_from_stream preserves freedom from duplicates. -/
theorem addDomainsFromStream_nodup (lines : List String) (validate : Bool)
    (bsize : Nat) (fails : Nat → Bool) (store : List String)
    (h : store.Nodup) :
    (addDomainsFromStream lines validate bsize fails store).store.Nodup := by
  unfold addDomainsFromStream ingestFinish
  have hst := ingest_foldl_nodup validate bsize fails lines (initialIngestState store) h
  split
  · exact hst
  · unfold flushBatch
    split
    · exact hst
    · exact addDomainsBatch_nodup _ _ hst

/-- The store operations reachable from the CLI: single and batch insert,
single and batch delete, truncation, and a whole ingestion run. -/
inductive StoreOp where
  | addOne (d : String)
  | addBatch (ds : List String)
  | removeOne (d : String)
  | removeBatch (ds : List String)
  | clearAll
  | ingest (lines : List String) (validate : Bool) (bsize : Nat) (fails : Nat → Bool)

/-- Effect of one operation on the stored rows. -/
def applyOp (rows : List String) : StoreOp → List String
  | .addOne d => (addDomain rows d).1
  | .addBatch ds => (addDomainsBatch ds rows).1
  | .removeOne d => (removeDomain rows d).1
  | .removeBatch ds => (removeDomainsBatch rows ds).1
  | .clearAll => (deleteAllDomains rows).1
  | .ingest lines validate bsize fails =>
      (addDomainsFromStream lines validate bsize fails rows).store

/-- Effect of a sequence of operations on the stored rows. -/
def applyOps (ops : List StoreOp) (rows : List String) : List String :=
  ops.foldl applyOp rows

/-- One operation preserves freedom from duplicates. -/
theorem applyOp_nodup (rows : List String) (op : StoreOp) (h : rows.Nodup) :
    (applyOp rows op).Nodup := by
  cases op with
  | addOne d =>
    simp only [applyOp, addDomain]
    split
    · exact h
    next hmem => exact nodup_append_single rows d h hmem
  | addBatch ds => exact addDomainsBatch_nodup ds rows h
  | removeOne d => exact h.filter _
  | removeBatch ds => exact removeDomainsBatch_nodup rows ds h
  | clearAll => exact List.nodup_nil
  | ingest lines validate bsize fails =>
    exact addDomainsFromStream_nodup lines validate bsize fails rows h

/-- A valid domain is not the empty string. -/
theorem valid_not_empty (d : String) (h : is_valid_domain d = true) :
    d.data.isEmpty = false := by
  cases hb : d.data.isEmpty with
  | false => rfl
  | true =>
    exfalso
    have hd : d.data = [] := by simpa using hb
    have hlen : d.length = 0 := by simp [String.length, hd]
    rw [is_valid_domain] at h
    simp [hlen] at h

/-- C5: every sequence of add / ingest / remove operations keeps the backing
set free of duplicate entries (byte-for-byte string equality); and
ingesting the same valid whitespace-trimmed domain twice, starting from an
empty store, leaves exactly one stored row. -/
theorem store_uniqueness_invariant :
    (∀ (ops : List StoreOp) (rows : List String), rows.Nodup →
      (applyOps ops rows).Nodup) ∧
    (∀ d : String, is_valid_domain d = true → pyStrip d = d →
      (addDomainsFromStream [d] true 500000 (fun _ => false)
        (addDomainsFromStream [d] true 500000 (fun _ => false) []).store).store.length
        = 1) := by
  constructor
  · intro ops
    induction ops with
    | nil => intro rows h; exact h
    | cons op ops ih =>
      intro rows h
      exact ih _ (applyOp_nodup rows op h)
  · intro d h1 h2
    have hne := valid_not_empty d h1
    simp [addDomainsFromStream, initialIngestState, ingestStep, ingestFinish,
      flushBatch, addDomainsBatch, paginate, insertRows, h1, h2, hne]

/-- Witness for C5: the invariant holds after one concrete insert on a
concrete duplicate-free store, and ingesting example.com twice stores one
row. -/
theorem store_uniqueness_invariant_witness :
    (["b.com"] : List String).Nodup ∧
    (applyOps [StoreOp.addOne "a.com"] ["b.com"]).Nodup ∧
    is_valid_domain "example.com" = true ∧
    (addDomainsFromStream ["example.com"] true 500000 (fun _ => false)
      (addDomainsFromStream ["example.com"] true 500000 (fun _ => false) []).store).store.length
      = 1 :=
  ⟨by decide, store_uniqueness_invariant.1 [StoreOp.addOne "a.com"] ["b.com"] (by decide),
    by decide,
    store_uniqueness_invariant.2 "example.com" (by decide) (by decide)⟩

/-! Partial-failure policy of ingestion (C6): which flushes fail changes
neither which lines are read, validated and batched, nor that the summary
is produced; a failed flush contributes nothing to new_domains. -/

/-- Loop states of two ingestion runs that differ only in the flush oracle
agree on everything the oracle cannot influence: the pending batch, the
processed and invalid counters, the flush index, and the batches carried by
the flushes so far. -/
def SameShape (s1 s2 : IngestState) : Prop :=
  s1.batch = s2.batch ∧ s1.total = s2.total ∧ s1.invalid = s2.invalid ∧
  s1.flushIdx = s2.flushIdx ∧
  s1.events.map FlushEvent.batch = s2.events.map FlushEvent.batch

/-- A flush event carries the batch that was flushed, failed or not. -/
theorem flushBatch_batch (store batch : List String) (fails : Nat → Bool)
    (idx : Nat) : (flushBatch store batch fails idx).2.batch = batch := by
  unfold flushBatch
  split <;> rfl

/-- A failed flush records no inserted rows. -/
theorem flushBatch_failed_inserted (store batch : List String)
    (fails : Nat → Bool) (idx : Nat) :
    (flushBatch store batch fails idx).2.failed = true →
    (flushBatch store batch fails idx).2.inserted = 0 := by
  unfold flushBatch
  split
  · intro _; rfl
  · simp

/-- One loop iteration preserves agreement between the two runs. -/
theorem ingestStep_shape (validate : Bool) (bsize : Nat) (f1 f2 : Nat → Bool)
    (s1 s2 : IngestState) (line : String) (h : SameShape s1 s2) :
    SameShape (ingestStep validate bsize f1 s1 line)
      (ingestStep validate bsize f2 s2 line) := by
  obtain ⟨hb, ht, hi, hf, he⟩ := h
  unfold ingestStep
  by_cases h1 : ((pyStrip line).data.isEmpty = true)
  · simp only [if_pos h1]
    exact ⟨hb, ht, hi, hf, he⟩
  · simp only [if_neg h1]
    by_cases h2 : ((validate && !is_valid_domain (pyStrip (pyStrip line))) = true)
    · simp only [if_pos h2]
      exact ⟨hb, ht, by rw [hi], hf, he⟩
    · simp only [if_neg h2]
      rw [hb, hf]
      by_cases h3 : bsize ≤ (s2.batch ++ [pyStrip (pyStrip line)]).length
      · simp only [if_pos h3]
        refine ⟨rfl, by simp [ht], by simp [hi], by simp [hf], ?_⟩
        simp [he, flushBatch_batch]
      · simp only [if_neg h3]
        exact ⟨rfl, by simp [ht], by simp [hi], by simp [hf], he⟩

/-- The whole loop preserves agreement between the two runs. -/
theorem ingest_foldl_shape (validate : Bool) (bsize : Nat) (f1 f2 : Nat → Bool)
    (lines : List String) :
    ∀ s1 s2, SameShape s1 s2 →
      SameShape (lines.foldl (ingestStep validate bsize f1) s1)
        (lines.foldl (ingestStep validate bsize f2) s2) := by
  induction lines with
  | nil => intro s1 s2 h; exact h
  | cons line lines ih =>
    intro s1 s2 h
    exact ih _ _ (ingestStep_shape validate bsize f1 f2 s1 s2 line h)

/-- The final flush and summary preserve agreement between the two runs. -/
theorem ingestFinish_shape (f1 f2 : Nat → Bool) (s1 s2 : IngestState)
    (h : SameShape s1 s2) :
    (ingestFinish f1 s1).flushes.map FlushEvent.batch =
      (ingestFinish f2 s2).flushes.map FlushEvent.batch ∧
    (ingestFinish f1 s1).summary.total = (ingestFinish f2 s2).summary.total ∧
    (ingestFinish f1 s1).summary.invalid = (ingestFinish f2 s2).summary.invalid := by
  obtain ⟨hb, ht, hi, hf, he⟩ := h
  unfold ingestFinish
  rw [hb, hf]
  by_cases hbe : (s2.batch.isEmpty = true)
  · simp only [if_pos hbe]
    exact ⟨he, ht, hi⟩
  · simp only [if_neg hbe]
    refine ⟨?_, ht, hi⟩
    simp [he, flushBatch_batch]

/-- Within one run: new_domains is the sum of the recorded flush rowcounts,
and a failed flush recorded rowcount zero. -/
def Accounted (st : IngestState) : Prop :=
  st.newCount = (st.events.map FlushEvent.inserted).sum ∧
  ∀ e ∈ st.events, e.failed = true → e.inserted = 0

/-- One loop iteration preserves the accounting invariant. -/
theorem ingestStep_accounted (validate : Bool) (bsize : Nat)
    (fails : Nat → Bool) (st : IngestState) (line : String)
    (h : Accounted st) :
    Accounted (ingestStep validate bsize fails st line) := by
  obtain ⟨hn, hf⟩ := h
  unfold ingestStep
  split
  · exact ⟨hn, hf⟩
  split
  · exact ⟨hn, hf⟩
  split
  · constructor
    · simp [hn]
    · intro e he hef
      rcases List.mem_append.mp he with h1 | h1
      · exact hf e h1 hef
      · rw [List.mem_singleton] at h1
        subst h1
        exact flushBatch_failed_inserted _ _ _ _ hef
  · exact ⟨hn, hf⟩

/-- The whole loop preserves the accounting invariant. -/
theorem ingest_foldl_accounted (validate : Bool) (bsize : Nat)
    (fails : Nat → Bool) (lines : List String) :
    ∀ st, Accounted st →
      Accounted (lines.foldl (ingestStep validate bsize fails) st) := by
  induction lines with
  | nil => intro st h; exact h
  | cons line lines ih =>
    intro st h
    exact ih _ (ingestStep_accounted validate bsize fails st line h)

/-- The final flush and summary preserve the accounting facts, and the
reported duplicates figure is total minus new. -/
theorem ingestFinish_accounted (fails : Nat → Bool) (st : IngestState)
    (h : Accounted st) :
    (ingestFinish fails st).summary.newDomains =
      ((ingestFinish fails st).flushes.map FlushEvent.inserted).sum ∧
    (∀ e ∈ (ingestFinish fails st).flushes, e.failed = true → e.inserted = 0) ∧
    (ingestFinish fails st).summary.duplicates =
      (ingestFinish fails st).summary.total -
        (ingestFinish fails st).summary.newDomains := by
  obtain ⟨hn, hf⟩ := h
  unfold ingestFinish
  split
  · exact ⟨hn, hf, rfl⟩
  · refine ⟨?_, ?_, rfl⟩
    · simp [hn]
    · intro e he hef
      rcases List.mem_append.mp he with h1 | h1
      · exact hf e h1 hef
      · rw [List.mem_singleton] at h1
        subst h1
        exact flushBatch_failed_inserted _ _ _ _ hef

/-- C6: whatever flushes fail, ingestion reads, validates and batches the
same lines (same flushed batches, same processed and invalid totals) and
still produces the summary; a failed batch contributes nothing to the
inserted count, which is the sum of the successful flushes' rowcounts. -/
theorem ingest_partial_failure (lines : List String) (validate : Bool)
    (bsize : Nat) (store : List String) (fails : Nat → Bool) :
    ((addDomainsFromStream lines validate bsize fails store).flushes.map
        FlushEvent.batch =
      (addDomainsFromStream lines validate bsize (fun _ => false) store).flushes.map
        FlushEvent.batch) ∧
    ((addDomainsFromStream lines validate bsize fails store).summary.total =
      (addDomainsFromStream lines validate bsize (fun _ => false) store).summary.total) ∧
    ((addDomainsFromStream lines validate bsize fails store).summary.invalid =
      (addDomainsFromStream lines validate bsize (fun _ => false) store).summary.invalid) ∧
    (∀ e ∈ (addDomainsFromStream lines validate bsize fails store).flushes,
      e.failed = true → e.inserted = 0) ∧
    ((addDomainsFromStream lines validate bsize fails store).summary.newDomains =
      ((addDomainsFromStream lines validate bsize fails store).flushes.map
        FlushEvent.inserted).sum) ∧
    ((addDomainsFromStream lines validate bsize fails store).summary.duplicates =
      (addDomainsFromStream lines validate bsize fails store).summary.total -
        (addDomainsFromStream lines validate bsize fails store).summary.newDomains) := by
  have hshape := ingest_foldl_shape validate bsize fails (fun _ => false) lines
    (initialIngestState store) (initialIngestState store) ⟨rfl, rfl, rfl, rfl, rfl⟩
  have hfin := ingestFinish_shape fails (fun _ => false) _ _ hshape
  have hacc0 : Accounted (initialIngestState store) :=
    ⟨rfl, fun e he => absurd he (List.not_mem_nil e)⟩
  have hacc := ingestFinish_accounted fails _
    (ingest_foldl_accounted validate bsize fails lines _ hacc0)
  exact ⟨hfin.1, hfin.2.1, hfin.2.2, hacc.2.1, hacc.1, hacc.2.2⟩

/-- Witness for C6: one line, batch size 1 and an always-failing oracle:
the failed flush carried the batch and contributed nothing, and the
processed total equals the failure-free run's. -/
theorem ingest_partial_failure_witness :
    (FlushEvent.mk ["a.com"] true 0) ∈
      (addDomainsFromStream ["a.com"] true 1 (fun _ => true) []).flushes ∧
    (FlushEvent.mk ["a.com"] true 0).inserted = 0 ∧
    (addDomainsFromStream ["a.com"] true 1 (fun _ => true) []).summary.total =
      (addDomainsFromStream ["a.com"] true 1 (fun _ => false) []).summary.total :=
  ⟨by decide,
    (ingest_partial_failure ["a.com"] true 1 [] (fun _ => true)).2.2.2.1
      (FlushEvent.mk ["a.com"] true 0) (by decide) rfl,
    (ingest_partial_failure ["a.com"] true 1 [] (fun _ => true)).2.1⟩

/-! Read-only commands under store failure (C7).  The outcome of the
underlying retrieval (DataStore.get_domains / DataStore.iter_domains) is
made explicit: ok with the rows, or a raised psycopg2.Error, modelled as
Except with a unit error. -/

/-- DomainManager.get_domains (lines 516-521): catches psycopg2.Error and
returns an empty set. -/
def managerGetDomains (res : Except Unit (List String)) : List String :=
  match res with
  | .ok rows => rows
  | .error _ => []

/-- DomainManager.iter_domains with the store outcome explicit: the
sort=true path materializes through DomainManager.get_domains, so a store
failure becomes an empty set; the sort=false path streams
DataStore.iter_domains, whose raise propagates to the caller. -/
def iterDomainsE (res : Except Unit (List String)) (m : Option String)
    (r : Option (String → Bool)) (sort : Bool) : Except Unit (List String) :=
  if sort then Except.ok (iterDomains (managerGetDomains res) m r true)
  else Except.map (fun rows => iterDomains rows m r false) res

/-- print command (lines 705-721): main catches only BrokenPipeError, so a
psycopg2.Error escaping the iteration reaches the top-level handler and
the process exits 1; otherwise main returns 0. -/
def printCmd (res : Except Unit (List String)) (m : Option String)
    (r : Option (String → Bool)) (sort : Bool) : Except Unit Nat :=
  Except.map (fun _ => 0) (iterDomainsE res m r sort)

/-- export command (lines 676-703): psycopg2.Error is not among the caught
exceptions either, so it reaches the top-level handler (exit 1). -/
def exportCmd (res : Except Unit (List String)) (m : Option String)
    (r : Option (String → Bool)) (sort : Bool) : Except Unit Nat :=
  Except.map (fun _ => 0) (iterDomainsE res m r sort)

/-- count command (lines 723-735): always iterates with sort=False and
catches psycopg2.Error, returning exit code 1. -/
def countCmd (res : Except Unit (List String)) (m : Option String)
    (r : Option (String → Bool)) : Nat :=
  match iterDomainsE res m r false with
  | .ok _ => 0
  | .error _ => 1

/-- An empty store yields an empty substring-filtered list. -/
theorem applyMatchFilter_nil (m : Option String) : applyMatchFilter m [] = [] := by
  cases m with
  | none => rfl
  | some s => by_cases hs : s.data.isEmpty = true <;> simp [applyMatchFilter, hs]

/-- An empty store yields an empty regex-filtered list. -/
theorem applyRegexFilter_nil (r : Option (String → Bool)) :
    applyRegexFilter r [] = [] := by
  cases r <;> rfl

/-- An empty store iterates to nothing on the sorted path. -/
theorem iterDomains_nil (m : Option String) (r : Option (String → Bool)) :
    iterDomains [] m r true = [] := by
  have h : iterDomains [] m r true =
      sortStrings (applyRegexFilter r (applyMatchFilter m [])) := rfl
  rw [h, applyMatchFilter_nil, applyRegexFilter_nil]
  rfl

/-- Counterexample to C7: with the store raising, print --sort does not
abort with the error; the failure is swallowed inside get_domains and the
command finishes with exit code 0 on an empty result. -/
theorem sorted_read_swallows_store_error :
    printCmd (Except.error ()) none none true = Except.ok 0 ∧
    printCmd (Except.error ()) none none true ≠ Except.error () :=
  ⟨rfl, fun h => Except.noConfusion h⟩

/-- C7 as amended: on the sort=false streaming path a store failure
propagates out of iter_domains, aborting print and export through the
top-level handler and making count return exit code 1; but on the
sort=true materializing path get_domains swallows the failure and the
commands complete normally (exit 0) on an empty result. -/
theorem read_error_paths (m : Option String) (r : Option (String → Bool)) :
    iterDomainsE (Except.error ()) m r false = Except.error () ∧
    printCmd (Except.error ()) m r false = Except.error () ∧
    exportCmd (Except.error ()) m r false = Except.error () ∧
    countCmd (Except.error ()) m r = 1 ∧
    iterDomainsE (Except.error ()) m r true = Except.ok [] ∧
    printCmd (Except.error ()) m r true = Except.ok 0 := by
  refine ⟨rfl, rfl, rfl, rfl, ?_, rfl⟩
  have h : iterDomainsE (Except.error ()) m r true =
      Except.ok (iterDomains [] m r true) := rfl
  rw [h, iterDomains_nil]

/-! The remove command's exit codes (C9), main lines 737-760. -/

/-- remove -d DOMAIN: DomainManager.remove_domain reports whether the
DELETE touched a row; main prints and succeeds on true, returns 1 on
false. -/
def removeSingleCmd (store : List String) (d : String) : Nat × List String :=
  if 0 < (removeDomain store d).2 then (0, (removeDomain store d).1)
  else (1, (removeDomain store d).1)

/-- remove with --match or --regex: collect the filtered candidates (sort=False),
batch-remove them when the collection is nonempty, log the removed count,
and fall through to return 0 either way. -/
def removeFilterCmd (store : List String) (m : Option String)
    (r : Option (String → Bool)) : Nat × List String :=
  if (iterDomains store m r false).isEmpty then (0, store)
  else (0, (removeDomainsBatch store (iterDomains store m r false)).1)

/-- Counterexample to C9: a substring filter matching no stored domain
leaves the remove command with exit code 0, not 1. -/
theorem remove_filter_no_match_returns_zero :
    (removeFilterCmd ["a.com"] (some "zzz") none).1 = 0 ∧
    (removeFilterCmd ["a.com"] (some "zzz") none).1 ≠ 1 :=
  ⟨rfl, by decide⟩

/-- C9 as amended: removing a named single domain that is absent exits with
code 1, but a substring/regex removal whose filter matches no stored
domain exits with code 0. -/
theorem remove_exit_codes :
    (∀ (store : List String) (d : String), d ∉ store →
      (removeSingleCmd store d).1 = 1) ∧
    (∀ (store : List String) (m : Option String) (r : Option (String → Bool)),
      iterDomains store m r false = [] → (removeFilterCmd store m r).1 = 0) := by
  constructor
  · intro store d hd
    have hfil : store.filter (fun x => !(x == d)) = store := by
      apply List.filter_eq_self.mpr
      intro a ha
      have hne : a ≠ d := fun h => hd (h ▸ ha)
      simp [hne]
    simp [removeSingleCmd, removeDomain, hfil]
  · intro store m r h
    simp [removeFilterCmd, h]

/-- Witness for C9 as amended: a concrete absent domain exits 1; a concrete
unmatched filter exits 0. -/
theorem remove_exit_codes_witness :
    ("b.com" ∉ (["a.com"] : List String)) ∧
    (removeSingleCmd ["a.com"] "b.com").1 = 1 ∧
    iterDomains ["a.com"] (some "zzz") none false = [] ∧
    (removeFilterCmd ["a.com"] (some "zzz") none).1 = 0 :=
  ⟨by decide, remove_exit_codes.1 ["a.com"] "b.com" (by decide), by decide,
    remove_exit_codes.2 ["a.com"] (some "zzz") none (by decide)⟩

end Bountycatch
